import Mathlib

/-!
Verification of the ExecMacro calibre plugin (src/action.py, src/config.py).

The development shallowly embeds the plugin's pure logic:

* `get_encoding` (src/action.py:156-174): the PEP-263-style encoding sniffer,
  including a faithful model of Python's `unicode.splitlines`, of the anchored
  regex `^[ \t\f]*#.*coding[:=][ \t]*([-\w.]+)` (with the greedy `.*`
  resolved to the rightmost feasible occurrence of `coding[:=]`, exactly as a
  backtracking engine does), and of `^[ \t\f]*(?:[#\r\n]|$)`.  `\w` is read
  as ASCII letters/digits/underscore, the character class the declaration
  names use.
* `executeMacro` (src/action.py:79-104, `execute_macro` in the source): the
  state update of `current_macro`, registry lookup, source resolution from
  `macrofile` (mode `rU`, i.e. universal-newline normalization) or `program`,
  and the encode-before-exec step.  The outcome of the dynamic `exec` call is
  reified as an `ExecAction` value recording what was handed to `exec`.
* the registry operations of src/config.py: `save_button_clicked` (line 343),
  `delete_button_clicked` (line 310), `import_button_clicked` (line 200) and
  `export_button_clicked` (line 230).  A Python dict keyed by macro name is
  embedded as an association list with unique keys; `json.dump`/`json.load`
  are modelled at document level (the exported document is the key-sorted
  list of entries; JSON round-trips the flat string/bool fields verbatim).
-/

/-! ## Python string splitting: `unicode.splitlines` -/

/-- The line-boundary characters of Python 2 `unicode.splitlines`:
LF, CR, VT, FF, FS, GS, RS, NEL, LINE SEPARATOR, PARAGRAPH SEPARATOR
(CRLF is handled as a single boundary in `splitlines`). -/
def isLineBreak (c : Char) : Bool :=
  c = '\n' || c = '\r' || c = '\x0b' || c = '\x0c' ||
  c = '\x1c' || c = '\x1d' || c = '\x1e' || c = '\x85' ||
  c = '\u2028' || c = '\u2029'

/-- Worker for `splitlines`: `acc` is the current line, reversed. -/
def splitlinesAux : List Char → List Char → List (List Char)
  | [], acc => if acc.isEmpty then [] else [acc.reverse]
  | '\r' :: '\n' :: rest, acc => acc.reverse :: splitlinesAux rest []
  | c :: rest, acc =>
    if isLineBreak c then acc.reverse :: splitlinesAux rest []
    else splitlinesAux rest (c :: acc)

/-- Python `txt.splitlines()` (keepends = False): the list of lines, with no
trailing empty line for a terminal line boundary. -/
def splitlines (s : List Char) : List (List Char) :=
  splitlinesAux s []

/-- The lines `get_encoding` scans: `txt.splitlines()` of src/action.py:160. -/
def sourceLines (txt : String) : List (List Char) :=
  splitlines txt.data

/-! ## The two regexes of `get_encoding` -/

/-- A character of the class `[ \t\f]` (leading-whitespace class of both
regexes in src/action.py:157-158). -/
def isBlankClass (c : Char) : Bool :=
  c = ' ' || c = '\t' || c = '\x0c'

/-- A character of the class `[-\w.]`, the encoding-name class of `decl_re`
(`\w` read as ASCII word characters). -/
def isCodingNameChar (c : Char) : Bool :=
  c.isAlphanum || c = '_' || c = '-' || c = '.'

/-- Match `coding[:=][ \t]*([-\w.]+)` at the head of `l`; return the capture.
The greedy `[ \t]*` and `([-\w.]+)` take maximal runs: no backtracking can
help, because space/tab is not in `[-\w.]`. -/
def codingCapture (l : List Char) : Option (List Char) :=
  match l with
  | 'c' :: 'o' :: 'd' :: 'i' :: 'n' :: 'g' :: d :: rest =>
    if d = ':' || d = '=' then
      let cap := (rest.dropWhile (fun c => c = ' ' || c = '\t')).takeWhile isCodingNameChar
      if cap.isEmpty then none else some cap
    else none
  | _ => none

/-- Resolve the greedy `.*` of `decl_re`: the match of
`coding[:=][ \t]*([-\w.]+)` at the rightmost position of `l` reachable
without `.` crossing a newline.  A backtracking engine maximises `.*`
first, so the rightmost feasible occurrence wins. -/
def codingSearch : List Char → Option (List Char)
  | [] => none
  | c :: rest =>
    if c = '\n' then none
    else (codingSearch rest).or (codingCapture (c :: rest))

/-- `decl_re.match(line)` of src/action.py:157:
`^[ \t\f]*#.*coding[:=][ \t]*([-\w.]+)`, returning the capture group.
The leading `[ \t\f]*` is deterministic because `#` is not in the class. -/
def declCapture (line : List Char) : Option (List Char) :=
  match line.dropWhile isBlankClass with
  | '#' :: rest => codingSearch rest
  | _ => none

/-- `blank_re.match(line)` of src/action.py:158:
`^[ \t\f]*(?:[#\r\n]|$)` — a blank or comment-only line. -/
def blankMatch (line : List Char) : Bool :=
  match line.dropWhile isBlankClass with
  | [] => true
  | c :: _ => c = '#' || c = '\r' || c = '\n'

/-- `get_encoding` (src/action.py:156-174): sniff an encoding declaration
from the first two lines of the source text. -/
def get_encoding (txt : String) : Option String :=
  match sourceLines txt with
  | [] => none
  | l0 :: rest =>
    match declCapture l0 with
    | some cap => some (String.mk cap)
    | none =>
      match rest with
      | [] => none
      | l1 :: _ =>
        if blankMatch l0 then
          match declCapture l1 with
          | some cap => some (String.mk cap)
          | none => none
        else none

example : get_encoding "print('hi')\n" = none := by decide
example : get_encoding "" = none := by decide
example : get_encoding "  \t# comment\n#coding=x_1.z\n" = some "x_1.z" := by decide

/-! ## The macro registry (src/config.py)

A Python dict keyed by macro name is embedded as an association list.
`regSet` is dict assignment `d[name] = rec` (replace in place, else append),
`regErase` is `del d[name]`, `regLookup` is `d.get(name, None)`. -/

/-- A macro record, the five fields written by `save_button_clicked`
(src/config.py:346-352). -/
structure MacroRec where
  name : String
  documentation : String
  program : String
  macrofile : String
  execfromfile : Bool
deriving DecidableEq, Repr

/-- The `prefs['macros']` mapping: an association list from macro name to
record. -/
abbrev Registry : Type := List (String × MacroRec)

/-- `d.get(name, None)` on the registry dict. -/
def regLookup : Registry → String → Option MacroRec
  | [], _ => none
  | (k, v) :: rest, n => if k = n then some v else regLookup rest n

/-- Dict assignment `d[name] = rec`: replace the entry in place when the key
exists, append otherwise. -/
def regSet : Registry → String → MacroRec → Registry
  | [], n, r => [(n, r)]
  | (k, v) :: rest, n, r => if k = n then (n, r) :: rest else (k, v) :: regSet rest n r

/-- `del d[name]`: drop the (unique) entry with the key. -/
def regErase : Registry → String → Registry
  | [], _ => []
  | (k, v) :: rest, n => if k = n then rest else (k, v) :: regErase rest n

/-- The key list of the registry (`d.keys()`). -/
def regKeys (reg : Registry) : List String :=
  reg.map Prod.fst

/-- `d.update(other)` (src/config.py:216): assign every entry of `other`
into `d`, in order. -/
def regUpdate (reg other : Registry) : Registry :=
  other.foldl (fun r p => regSet r p.1 p.2) reg

/-- Insertion into a key-sorted list, keyed through `key`; used to model
`sorted(...)` and `json.dump(..., sort_keys=True)`. -/
def insertByKey (key : α → String) (a : α) : List α → List α
  | [] => [a]
  | b :: rest =>
    if key a ≤ key b then a :: b :: rest else b :: insertByKey key a rest

/-- Sort a list by a string key (insertion sort). -/
def sortByKey (key : α → String) (l : List α) : List α :=
  l.foldr (insertByKey key) []

/-- `save_button_clicked` (src/config.py:343-356): build the fully-populated
record from the editor fields and assign it under the entered name. -/
def saveButtonClicked (reg : Registry) (n docu prog mfile : String)
    (fromfile : Bool) : Registry :=
  regSet reg n
    { name := n, documentation := docu, program := prog,
      macrofile := mfile, execfromfile := fromfile }

/-- A sequence of `save_button_clicked` operations, each given by the five
editor fields (name, documentation, program, macrofile, execfromfile). -/
def applySaves : Registry → List (String × String × String × String × Bool) → Registry
  | reg, [] => reg
  | reg, (n, docu, prog, mfile, fromfile) :: ops =>
    applySaves (saveButtonClicked reg n docu prog mfile fromfile) ops

/-- `delete_button_clicked` (src/config.py:310-321): if the name is a key,
delete it (the Bool is `false`: no dialog); otherwise leave the registry
alone and report the "Macro not defined" error dialog (`true`). -/
def deleteButtonClicked (reg : Registry) (n : String) : Registry × Bool :=
  if (regLookup reg n).isSome then (regErase reg n, false) else (reg, true)

/-- The detail list of the overwrite-confirmation dialog
(src/config.py:209): `sorted(new_macros.viewkeys() & prefs['macros'].viewkeys())`. -/
def overwriteNames (reg other : Registry) : List String :=
  sortByKey id ((regKeys other).filter (fun n => (regLookup reg n).isSome))

/-- `import_button_clicked` (src/config.py:200-227) after the document was
parsed: the confirmation dialog (whose detail text lists `overwriteNames`)
is always shown; `confirmed = false` returns with the registry untouched,
`confirmed = true` runs `prefs['macros'].update(new_macros)`.  Returns the
new registry and the name list the dialog displayed. -/
def importButtonClicked (reg other : Registry) (confirmed : Bool) :
    Registry × List String :=
  let ow := overwriteNames reg other
  if confirmed then (regUpdate reg other, ow) else (reg, ow)

/-- `export_button_clicked` (src/config.py:230-245) at document level:
`json.dump(prefs['macros'], fd, sort_keys=True, indent=4)` writes the
registry as the key-sorted list of entries (JSON keeps the flat string/bool
fields verbatim, so the document is modelled by that list). -/
def exportButtonClicked (reg : Registry) : Registry :=
  sortByKey Prod.fst reg

/-! ## The executor (src/action.py) -/

/-- `prefs` state relevant to `execute_macro`: the `current_macro` name and
the `macros` mapping. -/
structure PrefsState where
  currentMacro : String
  macros : Registry
deriving DecidableEq

/-- What `execute_macro` did after resolving the record:
* `noop` — returned without executing anything (no record, or empty
  `program` without the file flag);
* `runs sniffed detected text asBytes` — called `self.execute` on `text`;
  `sniffed` records whether `get_encoding` was consulted in this branch,
  `detected` its result, and `asBytes` whether `program.encode(encoding)`
  turned the text into an encoded byte string first;
* `fails` — an exception (e.g. the macro file is unreadable) reached the
  `except` clause: the failure is logged and an error dialog shown. -/
inductive ExecAction where
  | noop : ExecAction
  | runs (sniffed : Bool) (detected : Option String) (text : String)
      (asBytes : Bool) : ExecAction
  | fails : ExecAction
deriving DecidableEq

/-- Mode `'rU'` of `open` (src/action.py:92): universal newlines, `\r\n`
and `\r` both read back as `\n`. -/
def normalizeNewlines : List Char → List Char
  | [] => []
  | '\r' :: '\n' :: rest => '\n' :: normalizeNewlines rest
  | '\r' :: rest => '\n' :: normalizeNewlines rest
  | c :: rest => c :: normalizeNewlines rest

/-- Lines 80-82 of src/action.py: `prefs['current_macro'] = name` whenever
the invoked name differs from the stored one. -/
def setCurrent (st : PrefsState) (n : String) : PrefsState :=
  if n = st.currentMacro then st else { st with currentMacro := n }

/-- `execute_macro` (src/action.py:79-104).  `fs` maps a path to the raw
content of the file at that path, `none` when opening raises `IOError`.
In the `execfromfile` branch the open file object itself is handed to
`self.execute` — `get_encoding` is not consulted there; in the `program`
branch `get_encoding` runs on the program text and, when it detects an
encoding, the text is encoded to a byte string with it before `exec`. -/
def executeMacro (st : PrefsState) (fs : String → Option String)
    (n : String) : PrefsState × ExecAction :=
  let st' := setCurrent st n
  match regLookup st'.macros n with
  | none => (st', ExecAction.noop)
  | some m =>
    if m.execfromfile then
      match fs m.macrofile with
      | none => (st', ExecAction.fails)
      | some raw =>
        (st', ExecAction.runs false none (String.mk (normalizeNewlines raw.data)) false)
    else if m.program ≠ "" then
      let enc := get_encoding m.program
      (st', ExecAction.runs true enc m.program enc.isSome)
    else (st', ExecAction.noop)

/-- Fixture for C4: a registry entry whose source resolves from a file. -/
def fileRec : MacroRec :=
  { name := "m", documentation := "", program := "",
    macrofile := "f", execfromfile := true }

/-- Fixture for C4: the prefs state holding only `fileRec`. -/
def fileSt : PrefsState := { currentMacro := "m", macros := [("m", fileRec)] }

/-- Fixture for C4: a file system where path `f` holds a source text with a
declared encoding (and a CRLF line ending, exercising mode `rU`). -/
def fileFs : String → Option String :=
  fun p => if p = "f" then some "# coding: latin-1\r\nx=1\n" else none

/-- Fixture: a populated macro record for registry fixtures. -/
def demoRec (s : String) : MacroRec :=
  { name := s, documentation := "doc", program := "x=1",
    macrofile := "", execfromfile := false }

/-- Fixture: a two-entry registry with distinct, unsorted keys. -/
def demoReg : Registry := [("b", demoRec "b"), ("a", demoRec "a")]

/-! ## Registry lemmas -/

theorem regKeys_nil : regKeys [] = [] := rfl

theorem regKeys_cons (k : String) (w : MacroRec) (rest : Registry) :
    regKeys ((k, w) :: rest) = k :: regKeys rest := rfl

theorem mem_regKeys_of_mem {reg : Registry} {n : String} {v : MacroRec}
    (h : (n, v) ∈ reg) : n ∈ regKeys reg :=
  List.mem_map.mpr ⟨(n, v), h, rfl⟩

theorem regLookup_regSet (reg : Registry) (n : String) (v : MacroRec) (m : String) :
    regLookup (regSet reg n v) m = if n = m then some v else regLookup reg m := by
  induction reg with
  | nil => simp [regSet, regLookup]
  | cons p rest ih =>
    obtain ⟨k, w⟩ := p
    by_cases hk : k = n
    · subst hk
      by_cases hm : k = m <;> simp [regSet, regLookup, hm]
    · by_cases hm : k = m
      · subst hm
        have hnm : ¬n = k := fun h => hk h.symm
        simp [regSet, regLookup, hk, hnm]
      · simp [regSet, regLookup, hk, hm, ih]

theorem regLookup_eq_none_iff (reg : Registry) (n : String) :
    regLookup reg n = none ↔ n ∉ regKeys reg := by
  induction reg with
  | nil => simp [regLookup, regKeys]
  | cons p rest ih =>
    obtain ⟨k, w⟩ := p
    by_cases hk : k = n
    · subst hk
      simp [regLookup, regKeys_cons]
    · have hnk : ¬n = k := fun h => hk h.symm
      simp [regLookup, regKeys_cons, hk, hnk, ih]

theorem mem_regKeys_regSet (reg : Registry) (n : String) (v : MacroRec) (m : String) :
    m ∈ regKeys (regSet reg n v) ↔ m = n ∨ m ∈ regKeys reg := by
  induction reg with
  | nil => simp [regSet, regKeys_cons, regKeys_nil]
  | cons p rest ih =>
    obtain ⟨k, w⟩ := p
    by_cases hk : k = n
    · subst hk
      simp [regSet, regKeys_cons]
    · simp only [regSet, if_neg hk, regKeys_cons, List.mem_cons, ih]
      tauto

theorem regKeys_regSet_nodup (reg : Registry) (n : String) (v : MacroRec)
    (h : (regKeys reg).Nodup) : (regKeys (regSet reg n v)).Nodup := by
  induction reg with
  | nil => simp [regSet, regKeys_cons, regKeys_nil]
  | cons p rest ih =>
    obtain ⟨k, w⟩ := p
    rw [regKeys_cons] at h
    rcases List.nodup_cons.mp h with ⟨hk1, hk2⟩
    by_cases hk : k = n
    · subst hk
      simpa [regSet, regKeys_cons] using List.nodup_cons.mpr ⟨hk1, hk2⟩
    · simp only [regSet, if_neg hk, regKeys_cons]
      refine List.nodup_cons.mpr ⟨?_, ih hk2⟩
      intro hmem
      rcases (mem_regKeys_regSet rest n v k).mp hmem with h1 | h1
      · exact hk h1
      · exact hk1 h1

theorem regLookup_regUpdate (other : Registry) (reg : Registry) (n : String) :
    (regKeys other).Nodup →
    regLookup (regUpdate reg other) n = (regLookup other n).or (regLookup reg n) := by
  induction other generalizing reg with
  | nil => intro _; simp [regUpdate, regLookup, Option.or]
  | cons p rest ih =>
    intro hnd
    obtain ⟨k, v⟩ := p
    rw [regKeys_cons] at hnd
    rcases List.nodup_cons.mp hnd with ⟨hk1, hk2⟩
    have hstep : regUpdate reg ((k, v) :: rest) = regUpdate (regSet reg k v) rest := rfl
    rw [hstep, ih (regSet reg k v) hk2, regLookup_regSet]
    by_cases hk : k = n
    · subst hk
      have : regLookup rest k = none := (regLookup_eq_none_iff rest k).mpr hk1
      simp [regLookup, this, Option.or]
    · simp [regLookup, hk]

theorem insertByKey_perm {α : Type} (key : α → String) (a : α) (l : List α) :
    (insertByKey key a l).Perm (a :: l) := by
  induction l with
  | nil => simp [insertByKey]
  | cons b rest ih =>
    by_cases h : key a ≤ key b
    · simp [insertByKey, h]
    · simp only [insertByKey, if_neg h]
      exact (List.Perm.cons b ih).trans (List.Perm.swap a b rest)

theorem sortByKey_perm {α : Type} (key : α → String) (l : List α) :
    (sortByKey key l).Perm l := by
  induction l with
  | nil => simp [sortByKey]
  | cons a rest ih =>
    have hstep : sortByKey key (a :: rest) = insertByKey key a (sortByKey key rest) := rfl
    rw [hstep]
    exact (insertByKey_perm key a _).trans (List.Perm.cons a ih)

theorem regLookup_some_iff (reg : Registry) (n : String) (v : MacroRec)
    (hnd : (regKeys reg).Nodup) : regLookup reg n = some v ↔ (n, v) ∈ reg := by
  induction reg with
  | nil => simp [regLookup]
  | cons p rest ih =>
    obtain ⟨k, w⟩ := p
    rw [regKeys_cons] at hnd
    rcases List.nodup_cons.mp hnd with ⟨hk1, hk2⟩
    by_cases hk : k = n
    · subst hk
      constructor
      · intro h
        have hv : w = v := by simpa [regLookup] using h
        subst hv
        exact List.mem_cons_self _ _
      · intro h
        rcases List.mem_cons.mp h with he | hm
        · injection he with h1 h2
          subst h2
          simp [regLookup]
        · exact absurd (mem_regKeys_of_mem hm) hk1
    · have hnk : ¬n = k := fun h => hk h.symm
      simp only [regLookup, if_neg hk, List.mem_cons, Prod.mk.injEq, ih hk2]
      constructor
      · intro h; exact Or.inr h
      · rintro (⟨h, -⟩ | h)
        · exact absurd h hnk
        · exact h

theorem regLookup_perm (reg1 reg2 : Registry) (h : reg1.Perm reg2)
    (hnd : (regKeys reg1).Nodup) (n : String) :
    regLookup reg1 n = regLookup reg2 n := by
  have hk : (regKeys reg1).Perm (regKeys reg2) := h.map Prod.fst
  have hnd2 : (regKeys reg2).Nodup := hk.nodup hnd
  cases h2 : regLookup reg2 n with
  | none =>
    have hn : n ∉ regKeys reg2 := (regLookup_eq_none_iff reg2 n).mp h2
    exact (regLookup_eq_none_iff reg1 n).mpr fun hm => hn (hk.mem_iff.mp hm)
  | some v =>
    have hm : (n, v) ∈ reg2 := (regLookup_some_iff reg2 n v hnd2).mp h2
    exact (regLookup_some_iff reg1 n v hnd).mpr (h.mem_iff.mpr hm)

theorem regLookup_regErase_self (reg : Registry) (n : String)
    (hnd : (regKeys reg).Nodup) : regLookup (regErase reg n) n = none := by
  induction reg with
  | nil => simp [regErase, regLookup]
  | cons p rest ih =>
    obtain ⟨k, w⟩ := p
    rw [regKeys_cons] at hnd
    rcases List.nodup_cons.mp hnd with ⟨hk1, hk2⟩
    by_cases hk : k = n
    · subst hk
      simpa [regErase] using (regLookup_eq_none_iff rest k).mpr hk1
    · simp [regErase, regLookup, hk, ih hk2]

theorem regLookup_regErase_other (reg : Registry) (n m : String) (h : m ≠ n) :
    regLookup (regErase reg n) m = regLookup reg m := by
  induction reg with
  | nil => simp [regErase]
  | cons p rest ih =>
    obtain ⟨k, w⟩ := p
    by_cases hk : k = n
    · subst hk
      have hkm : ¬k = m := fun he => h he.symm
      simp [regErase, regLookup, hkm]
    · simp [regErase, regLookup, hk, ih]

theorem applySaves_nodup (ops : List (String × String × String × String × Bool))
    (reg : Registry) (hnd : (regKeys reg).Nodup) :
    (regKeys (applySaves reg ops)).Nodup := by
  induction ops generalizing reg with
  | nil => exact hnd
  | cons op ops ih =>
    obtain ⟨n, docu, prog, mfile, fromfile⟩ := op
    exact ih _ (regKeys_regSet_nodup reg n _ hnd)

/-! ## Executor lemmas -/

theorem setCurrent_macros (st : PrefsState) (n : String) :
    (setCurrent st n).macros = st.macros := by
  unfold setCurrent
  split <;> rfl

theorem setCurrent_currentMacro (st : PrefsState) (n : String) :
    (setCurrent st n).currentMacro = n := by
  by_cases h : n = st.currentMacro <;> simp [setCurrent, h]

theorem executeMacro_fst (st : PrefsState) (fs : String → Option String)
    (n : String) : (executeMacro st fs n).1 = setCurrent st n := by
  unfold executeMacro
  dsimp only
  split
  · rfl
  · split
    · split <;> rfl
    · split <;> rfl

/-! ## The claims -/

/-- C1: for any source text whose first line matches the declaration pattern,
`get_encoding` returns exactly the captured name; for any text with no
declaration line in positions 1-2 it returns `none`; in particular
`"# coding: latin-1\nprint('hi')\n"` yields `latin-1`, `"print('hi')\n"`
yields none, and `"\n# coding: utf-8\nx=1\n"` yields `utf-8`. -/
theorem C1_get_encoding_first_two_lines (txt : String) (e : List Char) :
    (∀ l0 rest, sourceLines txt = l0 :: rest → declCapture l0 = some e →
      get_encoding txt = some (String.mk e))
    ∧ ((∀ l ∈ (sourceLines txt).take 2, declCapture l = none) →
      get_encoding txt = none)
    ∧ get_encoding "# coding: latin-1\nprint('hi')\n" = some "latin-1"
    ∧ get_encoding "print('hi')\n" = none
    ∧ get_encoding "\n# coding: utf-8\nx=1\n" = some "utf-8" := by
  refine ⟨?_, ?_, by decide, by decide, by decide⟩
  · intro l0 rest h hd
    simp only [get_encoding, h, hd]
  · intro hnone
    cases hsl : sourceLines txt with
    | nil => simp [get_encoding, hsl]
    | cons l0 rest =>
      have h0 : declCapture l0 = none := hnone l0 (by simp [hsl])
      cases rest with
      | nil => simp [get_encoding, hsl, h0]
      | cons l1 rest2 =>
        have h1 : declCapture l1 = none := hnone l1 (by simp [hsl])
        by_cases hb : blankMatch l0 <;> simp [get_encoding, hsl, h0, h1, hb]

theorem C1_get_encoding_first_two_lines_witness :
    get_encoding "# coding: latin-1\nprint('hi')\n" =
      some (String.mk ['l', 'a', 't', 'i', 'n', '-', '1'])
    ∧ get_encoding "x=1\ny=2\n" = none :=
  ⟨(C1_get_encoding_first_two_lines "# coding: latin-1\nprint('hi')\n"
      ['l', 'a', 't', 'i', 'n', '-', '1']).1
      ("# coding: latin-1".data) ["print('hi')".data] (by decide) (by decide),
   (C1_get_encoding_first_two_lines "x=1\ny=2\n" []).2.1 (by decide)⟩

/-- C2 counterexample: the claim "for every two-line input where line 1 is
blank or comment-only and line 2 matches the declaration pattern, the result
is line 2's captured name" fails at `"# coding: a\n# coding: b"`: line 1 is
comment-only (it matches `blank_re`) and line 2 matches `decl_re` with
capture `b`, yet `get_encoding` returns line 1's capture `a`. -/
theorem C2_line2_inspection_cex :
    sourceLines "# coding: a\n# coding: b" =
      ["# coding: a".data, "# coding: b".data]
    ∧ blankMatch ("# coding: a".data) = true
    ∧ declCapture ("# coding: b".data) = some ['b']
    ∧ get_encoding "# coding: a\n# coding: b" = some "a"
    ∧ get_encoding "# coding: a\n# coding: b" ≠ some "b" := by decide

/-- C2 (amended): for every two-line input where line 1 is blank or
comment-only AND does not itself match the declaration pattern, and line 2
matches it, `get_encoding` returns line 2's captured name; for every input
whose line 1 is non-blank/non-comment and not itself a declaration, the
result is `none` whatever the remaining lines hold (short-circuit). -/
theorem C2_line2_inspection (txt : String) (l0 l1 e : List Char) :
    (sourceLines txt = [l0, l1] → blankMatch l0 = true → declCapture l0 = none →
      declCapture l1 = some e → get_encoding txt = some (String.mk e))
    ∧ (∀ rest, sourceLines txt = l0 :: rest → blankMatch l0 = false →
      declCapture l0 = none → get_encoding txt = none) := by
  constructor
  · intro h hb h0 h1
    simp only [get_encoding, h, h0, hb, if_true, h1]
  · intro rest h hb h0
    cases rest with
    | nil => simp [get_encoding, h, h0]
    | cons l1 rest2 => simp [get_encoding, h, h0, hb]

theorem C2_line2_inspection_witness :
    get_encoding "\n# coding: utf-8" = some (String.mk ['u', 't', 'f', '-', '8'])
    ∧ get_encoding "x=1\n# coding: utf-8\n" = none :=
  ⟨(C2_line2_inspection "\n# coding: utf-8" [] ("# coding: utf-8".data)
      ['u', 't', 'f', '-', '8']).1 (by decide) (by decide) (by decide) (by decide),
   (C2_line2_inspection "x=1\n# coding: utf-8\n" ("x=1".data) [] []).2
      ["# coding: utf-8".data] (by decide) (by decide) (by decide)⟩

/-- C3: `get_encoding` is total — in the embedding it is a function into
`Option String`, so every input yields a definite result and no exception;
it returns `none` when the text has fewer than one line (e.g. the empty
string), and absence of a match is the ordinary `none` value. -/
theorem C3_get_encoding_total (txt : String) :
    (sourceLines txt = [] → get_encoding txt = none)
    ∧ get_encoding "" = none
    ∧ ((get_encoding txt).isSome = true ∨ get_encoding txt = none) := by
  refine ⟨fun h => by simp [get_encoding, h], by decide, ?_⟩
  cases h : get_encoding txt with
  | none => exact Or.inr rfl
  | some e => exact Or.inl (by simp)

theorem C3_get_encoding_total_witness :
    get_encoding "" = none ∧ ((get_encoding "x").isSome = true ∨ get_encoding "x" = none) :=
  ⟨(C3_get_encoding_total "").1 (by decide), (C3_get_encoding_total "x").2.2⟩

/-- C4 counterexample: the claim "Encoding Detection runs on the resolved
source text in every execution, regardless of whether the source came from
the macrofile or the inline program" fails: executing `fileRec` (an
`execfromfile` record whose file content even declares `latin-1`) hands the
file to `exec` with no `get_encoding` call and no transcoding — the outcome
records `sniffed = false`, `detected = none`, `asBytes = false`. -/
theorem C4_detection_every_execution_cex :
    (executeMacro fileSt fileFs "m").2 =
      ExecAction.runs false none "# coding: latin-1\nx=1\n" false
    ∧ get_encoding "# coding: latin-1\nx=1\n" = some "latin-1" := by decide

/-- C4 (amended): the resolution of the source text is as claimed (file read
with `rU` line-ending normalization when `execfromfile` is set, the inline
`program` otherwise), but encoding detection runs only in the inline branch:
there `get_encoding` is consulted and, when it detects an encoding, the text
is encoded into a byte sequence with it before `exec`; in the `execfromfile`
branch the opened file goes to `exec` without any encoding detection. -/
theorem C4_resolution_and_detection (st : PrefsState)
    (fs : String → Option String) (n : String) (m : MacroRec) (raw : String) :
    (regLookup st.macros n = some m → m.execfromfile = true →
      fs m.macrofile = some raw →
      (executeMacro st fs n).2 =
        ExecAction.runs false none (String.mk (normalizeNewlines raw.data)) false)
    ∧ (regLookup st.macros n = some m → m.execfromfile = false → m.program ≠ "" →
      (executeMacro st fs n).2 =
        ExecAction.runs true (get_encoding m.program) m.program
          (get_encoding m.program).isSome) := by
  constructor
  · intro hm hff hfs
    simp only [executeMacro, setCurrent_macros, hm, hff, if_true, hfs]
  · intro hm hff hp
    simp only [executeMacro, setCurrent_macros, hm, hff, hp, Bool.false_eq_true,
      if_false, ne_eq, not_false_iff, if_true]

theorem C4_resolution_and_detection_witness :
    (executeMacro fileSt fileFs "m").2 =
      ExecAction.runs false none
        (String.mk (normalizeNewlines ("# coding: latin-1\r\nx=1\n").data)) false :=
  (C4_resolution_and_detection fileSt fileFs "m" fileRec
    "# coding: latin-1\r\nx=1\n").1 (by decide) (by decide) (by decide)

/-- C5: macro execution is a silent no-op when the requested name does not
resolve to a record (`Get` returns an absent result and never raises), and
when the resolved record's `program` is empty and its file flag is not
set. -/
theorem C5_silent_noop (st : PrefsState) (fs : String → Option String)
    (n : String) :
    (regLookup st.macros n = none → (executeMacro st fs n).2 = ExecAction.noop)
    ∧ (∀ m : MacroRec, regLookup st.macros n = some m → m.program = "" →
      m.execfromfile = false → (executeMacro st fs n).2 = ExecAction.noop) := by
  constructor
  · intro h
    simp only [executeMacro, setCurrent_macros, h]
  · intro m hm hp hff
    simp only [executeMacro, setCurrent_macros, hm, hff, Bool.false_eq_true,
      if_false, hp, ne_eq, not_true_eq_false]

theorem C5_silent_noop_witness :
    (executeMacro { currentMacro := "a", macros := [] } (fun _ => none) "b").2 =
      ExecAction.noop
    ∧ (executeMacro
        { currentMacro := "a",
          macros := [("b", { name := "b", documentation := "", program := "",
                             macrofile := "", execfromfile := false })] }
        (fun _ => none) "b").2 = ExecAction.noop :=
  ⟨(C5_silent_noop { currentMacro := "a", macros := [] } (fun _ => none) "b").1
      (by decide),
   (C5_silent_noop
      { currentMacro := "a",
        macros := [("b", { name := "b", documentation := "", program := "",
                           macrofile := "", execfromfile := false })] }
      (fun _ => none) "b").2
      { name := "b", documentation := "", program := "",
        macrofile := "", execfromfile := false }
      (by decide) (by decide) (by decide)⟩

/-- C10: invoking `execute_macro` with a name different from the stored
current macro persists that name as `current_macro` before the registry is
consulted, while leaving the registry itself unchanged — so even executing a
name absent from the registry (a no-op) mutates the stored current-macro
state. -/
theorem C10_sets_current_first (st : PrefsState) (fs : String → Option String)
    (n : String) (h : n ≠ st.currentMacro) :
    (executeMacro st fs n).1.currentMacro = n
    ∧ (executeMacro st fs n).1.macros = st.macros
    ∧ (regLookup st.macros n = none →
      executeMacro st fs n = ({ st with currentMacro := n }, ExecAction.noop)) := by
  refine ⟨?_, ?_, ?_⟩
  · rw [executeMacro_fst, setCurrent_currentMacro]
  · rw [executeMacro_fst, setCurrent_macros]
  · intro hnone
    have hset : setCurrent st n = { st with currentMacro := n } := by
      simp [setCurrent, h]
    simp only [executeMacro, setCurrent_macros, hnone, hset]

theorem C10_sets_current_first_witness :
    (executeMacro { currentMacro := "a", macros := [] } (fun _ => none) "b").1.currentMacro = "b"
    ∧ executeMacro { currentMacro := "a", macros := [] } (fun _ => none) "b" =
      ({ currentMacro := "b", macros := [] }, ExecAction.noop) :=
  ⟨(C10_sets_current_first { currentMacro := "a", macros := [] }
      (fun _ => none) "b" (by decide)).1,
   (C10_sets_current_first { currentMacro := "a", macros := [] }
      (fun _ => none) "b" (by decide)).2.2 (by decide)⟩

/-- C6: saving a fully-populated record inserts it when the name is new and
replaces the entry when the name exists; other names are untouched; after
any sequence of save operations a duplicate-free registry stays
duplicate-free. -/
theorem C6_save_upsert (reg : Registry) (n docu prog mfile : String)
    (fromfile : Bool) (ops : List (String × String × String × String × Bool))
    (hnd : (regKeys reg).Nodup) :
    regLookup (saveButtonClicked reg n docu prog mfile fromfile) n =
      some { name := n, documentation := docu, program := prog,
             macrofile := mfile, execfromfile := fromfile }
    ∧ (∀ m, m ≠ n →
      regLookup (saveButtonClicked reg n docu prog mfile fromfile) m =
        regLookup reg m)
    ∧ (regKeys (applySaves reg ops)).Nodup := by
  refine ⟨?_, ?_, applySaves_nodup ops reg hnd⟩
  · rw [saveButtonClicked, regLookup_regSet]
    simp
  · intro m hm
    rw [saveButtonClicked, regLookup_regSet, if_neg (fun he => hm he.symm)]

theorem C6_save_upsert_witness :
    regLookup (saveButtonClicked demoReg "a" "d2" "p2" "f2" true) "a" =
      some { name := "a", documentation := "d2", program := "p2",
             macrofile := "f2", execfromfile := true }
    ∧ (∀ m, m ≠ "a" →
      regLookup (saveButtonClicked demoReg "a" "d2" "p2" "f2" true) m =
        regLookup demoReg m)
    ∧ (regKeys (applySaves demoReg [("a", "d", "p", "f", false),
        ("c", "d", "p", "f", true)])).Nodup :=
  C6_save_upsert demoReg "a" "d2" "p2" "f2" true
    [("a", "d", "p", "f", false), ("c", "d", "p", "f", true)] (by decide)

/-- C7: deleting an existing name removes exactly that entry with no dialog;
deleting a name not in the registry leaves it completely unchanged and
reports the "Macro not defined" condition instead of failing. -/
theorem C7_delete (reg : Registry) (n : String) (hnd : (regKeys reg).Nodup) :
    (regLookup reg n = none → deleteButtonClicked reg n = (reg, true))
    ∧ ((regLookup reg n).isSome = true →
      (deleteButtonClicked reg n).2 = false
      ∧ regLookup (deleteButtonClicked reg n).1 n = none
      ∧ (∀ m, m ≠ n →
        regLookup (deleteButtonClicked reg n).1 m = regLookup reg m)) := by
  constructor
  · intro h
    simp [deleteButtonClicked, h]
  · intro h
    have hd : deleteButtonClicked reg n = (regErase reg n, false) := by
      simp [deleteButtonClicked, h]
    rw [hd]
    exact ⟨rfl, regLookup_regErase_self reg n hnd,
           fun m hm => regLookup_regErase_other reg n m hm⟩

theorem C7_delete_witness :
    deleteButtonClicked demoReg "zz" = (demoReg, true)
    ∧ regLookup (deleteButtonClicked demoReg "a").1 "a" = none :=
  ⟨(C7_delete demoReg "zz" (by decide)).1 (by decide),
   ((C7_delete demoReg "a" (by decide)).2 (by decide)).2.1⟩

/-- C8: the import flow always passes through the confirmation dialog, whose
detail text lists exactly the names present in both the import and the
registry; declining leaves the registry unchanged; accepting yields the
union of the two mappings with the imported record winning on every
overlapping key. -/
theorem C8_import_merge (reg other : Registry) (confirmed : Bool)
    (hnd : (regKeys other).Nodup) :
    (importButtonClicked reg other false).1 = reg
    ∧ (∀ n, regLookup (importButtonClicked reg other true).1 n =
        (regLookup other n).or (regLookup reg n))
    ∧ (∀ n, n ∈ (importButtonClicked reg other confirmed).2 ↔
        n ∈ regKeys other ∧ (regLookup reg n).isSome = true) := by
  refine ⟨rfl, ?_, ?_⟩
  · intro n
    have h1 : (importButtonClicked reg other true).1 = regUpdate reg other := rfl
    rw [h1, regLookup_regUpdate other reg n hnd]
  · intro n
    have h2 : (importButtonClicked reg other confirmed).2 =
        overwriteNames reg other := by
      cases confirmed <;> rfl
    rw [h2]
    simp only [overwriteNames, (sortByKey_perm id _).mem_iff, List.mem_filter]

theorem C8_import_merge_witness :
    (importButtonClicked demoReg [("a", demoRec "a2")] false).1 = demoReg
    ∧ regLookup (importButtonClicked demoReg [("a", demoRec "a2")] true).1 "a" =
        some (demoRec "a2") := by
  refine ⟨(C8_import_merge demoReg [("a", demoRec "a2")] false (by decide)).1, ?_⟩
  have h := (C8_import_merge demoReg [("a", demoRec "a2")] true (by decide)).2.1 "a"
  rw [h]
  decide

/-- C9: exporting the registry (the key-sorted document `json.dump` writes)
and importing that document into an empty registry reproduces a registry
that maps every name to the same record — all five fields — as the
original. -/
theorem C9_export_import_roundtrip (reg : Registry)
    (hnd : (regKeys reg).Nodup) (n : String) :
    regLookup (importButtonClicked [] (exportButtonClicked reg) true).1 n =
      regLookup reg n := by
  have hperm : (exportButtonClicked reg).Perm reg := sortByKey_perm Prod.fst reg
  have hkeys : (regKeys (exportButtonClicked reg)).Perm (regKeys reg) :=
    hperm.map Prod.fst
  have hnd2 : (regKeys (exportButtonClicked reg)).Nodup := hkeys.symm.nodup hnd
  have h1 : (importButtonClicked [] (exportButtonClicked reg) true).1 =
      regUpdate [] (exportButtonClicked reg) := rfl
  rw [h1, regLookup_regUpdate _ _ _ hnd2,
    regLookup_perm (exportButtonClicked reg) reg hperm hnd2 n]
  cases regLookup reg n <;> rfl

theorem C9_export_import_roundtrip_witness :
    regLookup (importButtonClicked [] (exportButtonClicked demoReg) true).1 "a" =
      regLookup demoReg "a" :=
  C9_export_import_roundtrip demoReg (by decide) "a"
